import Mathlib

/-!
Verification of the quadtree image compressor (src/quadtree.py).

Shallow embedding conventions:
* numpy numeric values are modelled by the rationals `ℚ` (exact arithmetic;
  the Python floats that occur in the claims, such as 0.75 and 10.5, are
  exactly representable, so this idealisation is faithful on them);
* a pixel color is a vector of channel values, modelled as `List ℚ`
  (a grayscale value is the one-channel instantiation; the dedicated 2-D
  scalar model used for the boundary-drawing claim is given separately);
* Python `None`-able object references (the four child slots of a node)
  are modelled by the dedicated `OptNode` sum, mirroring the nullable slot;
* a Python function that can raise is modelled as `Option`/`Except`
  valued, `none`/`.error` meaning the call raises;
* the recursions of `build_quadtree_recursive` and `max_num_nodes` are on
  rectangle sizes / numbers rather than on a structure, so they take an
  explicit fuel argument; `none` on all fuels models nontermination
  (equivalently, Python RecursionError).
-/

/-- The box corners stored in a node: upperleft (x,y), downright (x,y),
inclusive integer pixel coordinates, origin at the upper left. -/
structure Rect where
  ul_x : ℤ
  ul_y : ℤ
  dr_x : ℤ
  dr_y : ℤ
deriving DecidableEq

/-- The two ways the Python geometry routine can die on a bad quadrant tag:
an AssertionError from the `assert` statement, or a NameError from reading
the never-assigned shift variables. -/
inductive PyError where
  | assertionError
  | nameError
deriving DecidableEq

/-- Python `int(...)` applied to a (real-valued) number: truncation toward
zero. -/
def pyInt (q : ℚ) : ℤ := if 0 ≤ q then ⌊q⌋ else ⌈q⌉

/-- The arithmetic core of `compute_image_corners`: given the parent box and
the quadrant shifts, compute `half_width = (dr_x - ul_x + 1)/2` (true,
possibly fractional, division), `half_height` likewise, then the four
corners with Python `int(...)` truncation, exactly as in the source. -/
def cornersCore (r : Rect) (x_shift y_shift : ℤ) : Rect :=
  let half_width : ℚ := ((r.dr_x - r.ul_x + 1 : ℤ) : ℚ) / 2
  let half_height : ℚ := ((r.dr_y - r.ul_y + 1 : ℤ) : ℚ) / 2
  let ul_x : ℤ := pyInt ((r.ul_x : ℚ) + (x_shift : ℚ) * half_width)
  let ul_y : ℤ := pyInt ((r.ul_y : ℚ) + (y_shift : ℚ) * half_height)
  let dr_x : ℤ := pyInt ((ul_x : ℚ) + half_width - 1)
  let dr_y : ℤ := pyInt ((ul_y : ℚ) + half_height - 1)
  ⟨ul_x, ul_y, dr_x, dr_y⟩

/-- `compute_image_corners(node, child)` from the source.  The four
recognised tags set the quadrant shifts.  On any other tag the source
executes `assert('Proper child needed.')`: the assert condition is the
non-empty string, so the assertion passes (it would only fail if the
string were empty, which the dead branch below records), and the
subsequent use of the never-assigned `x_shift` raises a NameError. -/
def compute_image_corners (r : Rect) (child : String) : Except PyError Rect :=
  if child = "nw" then .ok (cornersCore r 0 0)
  else if child = "ne" then .ok (cornersCore r 1 0)
  else if child = "sw" then .ok (cornersCore r 0 1)
  else if child = "se" then .ok (cornersCore r 1 1)
  else if "Proper child needed." = "" then .error .assertionError
  else .error .nameError

mutual
/-- The `Node` class: color (nullable), the four box corners, the level,
and the four nullable child slots `nw ne sw se`. -/
inductive QNode (α : Type) : Type where
  | mk (color : Option α) (rect : Rect) (level : ℤ)
       (nw ne sw se : OptNode α) : QNode α
/-- A nullable reference to a `Node`, mirroring a Python child slot that
holds either `None` or a node object. -/
inductive OptNode (α : Type) : Type where
  | none : OptNode α
  | some (t : QNode α) : OptNode α
end

/-- The `color` field of a node. -/
def QNode.color {α : Type} : QNode α → Option α
  | .mk c _ _ _ _ _ _ => c

/-- The box corners of a node. -/
def QNode.rect {α : Type} : QNode α → Rect
  | .mk _ r _ _ _ _ _ => r

/-- The `level` field of a node. -/
def QNode.level {α : Type} : QNode α → ℤ
  | .mk _ _ l _ _ _ _ => l

/-- A pixel grid (`qt.image` viewed as a lookup `image[y, x]`). -/
def Grid (α : Type) : Type := ℤ → ℤ → α

/-- `build_quadtree_recursive(qt, node)`: if the box of the node is a
single pixel, store that pixel of the image as the color; otherwise
create the four children with `compute_image_corners` and recurse into
each (order nw, ne, sw, se, as in the source).  The fuel argument makes
the rectangle recursion well defined on every input; `none` means the
fuel ran out (the source recursion on such boxes does not reach this
depth, or does not terminate at all). -/
def build_quadtree_recursive {α : Type} (pix : Grid α) :
    ℕ → Rect → ℤ → Option (QNode α)
  | 0, _, _ => Option.none
  | fuel+1, r, level =>
    if r.dr_x - r.ul_x = 0 ∧ r.dr_y - r.ul_y = 0 then
      Option.some (.mk (Option.some (pix r.ul_y r.ul_x)) r level
        .none .none .none .none)
    else do
      let rnw ← (compute_image_corners r "nw").toOption
      let tnw ← build_quadtree_recursive pix fuel rnw (level+1)
      let rne ← (compute_image_corners r "ne").toOption
      let tne ← build_quadtree_recursive pix fuel rne (level+1)
      let rsw ← (compute_image_corners r "sw").toOption
      let tsw ← build_quadtree_recursive pix fuel rsw (level+1)
      let rse ← (compute_image_corners r "se").toOption
      let tse ← build_quadtree_recursive pix fuel rse (level+1)
      return .mk Option.none r level (.some tnw) (.some tne) (.some tsw) (.some tse)

/-- `Quadtree.__init__` followed by `build_quadtree`: the root covers
`[0, 0, width-1, height-1]` at level 0 and is built recursively from the
image. -/
def build_quadtree {α : Type} (pix : Grid α) (height width : ℤ) (fuel : ℕ) :
    Option (QNode α) :=
  build_quadtree_recursive pix fuel ⟨0, 0, width - 1, height - 1⟩ 0

/-- A pixel color: one rational per image channel (`np` vector). -/
abbrev Color : Type := List ℚ

/-- `np.mean([a,b,c,d])` on one channel. -/
def npMean4 (a b c d : ℚ) : ℚ := (a + b + c + d) / 4

/-- `np.var([a,b,c,d])` on one channel: the mean of the squared
deviations from the mean (population variance, divisor 4). -/
def npVar4 (a b c d : ℚ) : ℚ :=
  ((a - npMean4 a b c d) ^ 2 + (b - npMean4 a b c d) ^ 2 +
   (c - npMean4 a b c d) ^ 2 + (d - npMean4 a b c d) ^ 2) / 4

/-- `np.var([c1,c2,c3,c4], axis=0)`: channelwise population variance of
four color vectors. -/
def npVar4C : Color → Color → Color → Color → Color
  | a :: as, b :: bs, c :: cs, d :: ds => npVar4 a b c d :: npVar4C as bs cs ds
  | _, _, _, _ => []

/-- `np.mean([c1,c2,c3,c4], axis=0)`: channelwise mean of four color
vectors. -/
def npMean4C : Color → Color → Color → Color → Color
  | a :: as, b :: bs, c :: cs, d :: ds => npMean4 a b c d :: npMean4C as bs cs ds
  | _, _, _, _ => []

/-- `combine_colors(node, threshold)`: takes the colors of the four
children of the node (in slot order nw, ne, sw, se).  If any of the four
is `None` the result is `None`; otherwise `difference` is the sum over
channels of `np.var` of the four colors, and the result is their
channelwise `np.mean` when `difference < threshold` and `None`
otherwise. -/
def combine_colors (c1 c2 c3 c4 : Option Color) (threshold : ℚ) : Option Color :=
  match c1, c2, c3, c4 with
  | some c1, some c2, some c3, some c4 =>
    let difference := (npVar4C c1 c2 c3 c4).sum
    if difference < threshold then some (npMean4C c1 c2 c3 c4) else none
  | _, _, _, _ => none

/-- `compress_quadtree_recursive(qt, node, threshold)`: a leaf (all four
child slots `None`) is returned unchanged; a node with four present
children has its children compressed first (post-order), then its color
set to `combine_colors` of their colors, and its children pruned when
that color is present.  A node with a partial set of children makes the
source recurse into a `None` slot and die on `node.nw` (AttributeError);
that crash is the `none` result. -/
def compress_quadtree_recursive (threshold : ℚ) :
    QNode Color → Option (QNode Color)
  | .mk c r l .none .none .none .none =>
      some (.mk c r l .none .none .none .none)
  | .mk _ r l (.some a) (.some b) (.some c) (.some d) => do
      let a2 ← compress_quadtree_recursive threshold a
      let b2 ← compress_quadtree_recursive threshold b
      let c2 ← compress_quadtree_recursive threshold c
      let d2 ← compress_quadtree_recursive threshold d
      match combine_colors a2.color b2.color c2.color d2.color threshold with
      | some col => return .mk (some col) r l .none .none .none .none
      | none => return .mk none r l (.some a2) (.some b2) (.some c2) (.some d2)
  | _ => none

/-- `count_nodes(node)`: 0 for a `None` slot, else 1 plus the counts of
the four child slots. -/
def count_nodes {α : Type} : OptNode α → ℕ
  | .none => 0
  | .some (.mk _ _ _ nw ne sw se) =>
      1 + count_nodes nw + count_nodes ne + count_nodes sw + count_nodes se

/-- `max_num_nodes(N)` with fuel.  The source computes `N*N` plus the
recursive value at `N/2`, Python 3 true division, so the argument ranges
over the rationals; the recursion stops only at `N == 1`.  `none` means
the base case was not reached within the fuel. -/
def max_num_nodes : ℕ → ℚ → Option ℚ
  | 0, _ => none
  | fuel+1, N =>
    if N = 1 then some 1
    else (max_num_nodes fuel (N / 2)).map (fun m => N * N + m)

/-- Number of nodes of the full quadtree over a `2^k`-sided image:
1 for a single pixel, else the root plus four full subtrees. -/
def fullCount : ℕ → ℕ
  | 0 => 1
  | k+1 => 1 + 4 * fullCount k

/-- Membership of the pixel `(x, y)` in the box `r` (the numpy slice
`image[r.ul_y : r.dr_y + 1, r.ul_x : r.dr_x + 1]`). -/
def inRect (r : Rect) (x y : ℤ) : Prop :=
  r.ul_x ≤ x ∧ x ≤ r.dr_x ∧ r.ul_y ≤ y ∧ y ≤ r.dr_y

instance (r : Rect) (x y : ℤ) : Decidable (inRect r x y) := by
  unfold inRect; infer_instance

/-- `draw_color(qt, node, draw_box)` for a 3-channel image: fill the box
of the node with the given color; with `draw_box` additionally overwrite
the left column and the top row of the box with black `[0, 0, 0]`
(`image[ul_y : dr_y + 1, ul_x]` and `image[ul_y, ul_x : dr_x + 1]`). -/
def draw_color (buf : Grid Color) (r : Rect) (c : Color) (draw_box : Bool) :
    Grid Color :=
  let filled : Grid Color := fun y x => if inRect r x y then c else buf y x
  if draw_box then
    fun y x =>
      if (x = r.ul_x ∧ r.ul_y ≤ y ∧ y ≤ r.dr_y) ∨
         (y = r.ul_y ∧ r.ul_x ≤ x ∧ x ≤ r.dr_x) then [0, 0, 0]
      else filled y x
  else filled

/-- `quadtree_to_image_recursive(qt, node, draw_box)` for a 3-channel
image, acting on the buffer `qt.image`: a node with a color paints its
box (and stops); a node without a color recurses into nw, ne, sw, se in
order; a node without a color and with a partial set of children makes
the source recurse into a `None` slot and die on `node.color`
(AttributeError), the `none` result here. -/
def quadtree_to_image_recursive (draw_box : Bool) :
    QNode Color → Grid Color → Option (Grid Color)
  | .mk (some c) r _ _ _ _ _, buf => some (draw_color buf r c draw_box)
  | .mk none _ _ (.some a) (.some b) (.some c) (.some d), buf => do
      let b1 ← quadtree_to_image_recursive draw_box a buf
      let b2 ← quadtree_to_image_recursive draw_box b b1
      let b3 ← quadtree_to_image_recursive draw_box c b2
      quadtree_to_image_recursive draw_box d b3
  | .mk none _ _ _ _ _ _, _ => none

/-- `np.squeeze` at the shape level: all axes of size 1 are removed. -/
def npSqueeze (shape : List ℕ) : List ℕ := shape.filter (fun d => d ≠ 1)

/-- `quadtree_to_image(qt, draw_box)`: `qt.image` is reset to a fresh
uninitialised buffer (`np.empty`, modelled as the arbitrary argument
`fresh`), the tree is painted into it, and the result is returned
together with its `np.squeeze`-d shape. -/
def quadtree_to_image (fresh : Grid Color) (root : QNode Color)
    (shape : List ℕ) (draw_box : Bool) : Option (Grid Color × List ℕ) :=
  (quadtree_to_image_recursive draw_box root fresh).map
    (fun b => (b, npSqueeze shape))

/-- `draw_color` for a 2-D (grayscale) image: the fill broadcasts the
scalar color over the box, but with `draw_box` the border writes assign
the fixed 3-vector `np.array([0, 0, 0])` into 1-D slices of the buffer:
`image[ul_y : dr_y + 1, ul_x]` of length `dr_y - ul_y + 1` and
`image[ul_y, ul_x : dr_x + 1]` of length `dr_x - ul_x + 1`.  numpy can
broadcast a shape `(3,)` value onto a slice only when the slice length
is 3, so unless the box is 3 pixels high and 3 pixels wide the statement
raises; `none` models that crash. -/
def draw_color_2d (buf : Grid ℚ) (r : Rect) (c : ℚ) (draw_box : Bool) :
    Option (Grid ℚ) :=
  let filled : Grid ℚ := fun y x => if inRect r x y then c else buf y x
  if draw_box then
    if r.dr_y - r.ul_y + 1 = 3 ∧ r.dr_x - r.ul_x + 1 = 3 then
      some (fun y x =>
        if (x = r.ul_x ∧ r.ul_y ≤ y ∧ y ≤ r.dr_y) ∨
           (y = r.ul_y ∧ r.ul_x ≤ x ∧ x ≤ r.dr_x) then 0
        else filled y x)
    else none
  else some filled

/-- `quadtree_to_image_recursive` for a 2-D (grayscale) image; identical
traversal to the 3-channel model, but painting through
`draw_color_2d`. -/
def quadtree_to_image_recursive_2d (draw_box : Bool) :
    QNode ℚ → Grid ℚ → Option (Grid ℚ)
  | .mk (some c) r _ _ _ _ _, buf => draw_color_2d buf r c draw_box
  | .mk none _ _ (.some a) (.some b) (.some c) (.some d), buf => do
      let b1 ← quadtree_to_image_recursive_2d draw_box a buf
      let b2 ← quadtree_to_image_recursive_2d draw_box b b1
      let b3 ← quadtree_to_image_recursive_2d draw_box c b2
      quadtree_to_image_recursive_2d draw_box d b3
  | .mk none _ _ _ _ _ _, _ => none

/-- The render traversal reaches a colored node whose box is not exactly
3 pixels high and 3 pixels wide (the only box a border write into a 2-D
buffer can succeed on).  Colored nodes stop the descent, so only colored
nodes reachable through colorless fully-childed ancestors count. -/
def visitsBad {α : Type} : QNode α → Bool
  | .mk (some _) r _ _ _ _ _ =>
      decide (r.dr_y - r.ul_y + 1 ≠ 3) || decide (r.dr_x - r.ul_x + 1 ≠ 3)
  | .mk none _ _ (.some a) (.some b) (.some c) (.some d) =>
      visitsBad a || visitsBad b || visitsBad c || visitsBad d
  | _ => false

/-- The structural invariant of the spec, checked at every reachable
node: a node either has a present color and all four child slots absent,
or an absent color and all four child slots present. -/
def wfB {α : Type} : QNode α → Bool
  | .mk c _ _ .none .none .none .none => c.isSome
  | .mk c _ _ (.some a) (.some b) (.some c2) (.some d) =>
      c.isNone && wfB a && wfB b && wfB c2 && wfB d
  | _ => false

/-- Geometric well-formedness used by the render proofs: every colorless
node has four children whose boxes are exactly the four half-size
quadrants of its own box (which therefore has positive even width and
height).  Colored nodes stop the render descent, so nothing is required
below them. -/
inductive Renderable {α : Type} : QNode α → Prop where
  | colored (c : α) (r : Rect) (l : ℤ) (nw ne sw se : OptNode α) :
      Renderable (.mk (some c) r l nw ne sw se)
  | internal (r : Rect) (l : ℤ) (a b c d : QNode α) (m n : ℤ)
      (hm : 1 ≤ m) (hn : 1 ≤ n)
      (hw : r.dr_x - r.ul_x + 1 = 2 * m) (hh : r.dr_y - r.ul_y + 1 = 2 * n)
      (ha : a.rect = ⟨r.ul_x, r.ul_y, r.ul_x + m - 1, r.ul_y + n - 1⟩)
      (hb : b.rect = ⟨r.ul_x + m, r.ul_y, r.ul_x + 2 * m - 1, r.ul_y + n - 1⟩)
      (hc : c.rect = ⟨r.ul_x, r.ul_y + n, r.ul_x + m - 1, r.ul_y + 2 * n - 1⟩)
      (hd : d.rect = ⟨r.ul_x + m, r.ul_y + n, r.ul_x + 2 * m - 1,
                      r.ul_y + 2 * n - 1⟩)
      (pa : Renderable a) (pb : Renderable b) (pc : Renderable c)
      (pd : Renderable d) :
      Renderable (.mk none r l (.some a) (.some b) (.some c) (.some d))

/-- The 2 by 2 single-channel example image [[10, 10], [10, 12]] from the
spec scenarios (each pixel a one-channel vector). -/
def pixA : Grid Color := fun y x => if x = 1 ∧ y = 1 then [12] else [10]

/-- The quadtree that build produces on `pixA`: a colorless root over
[0, 0, 1, 1] and four single-pixel leaves. -/
def tEx : QNode Color :=
  .mk none ⟨0, 0, 1, 1⟩ 0
    (.some (.mk (some [10]) ⟨0, 0, 0, 0⟩ 1 .none .none .none .none))
    (.some (.mk (some [10]) ⟨1, 0, 1, 0⟩ 1 .none .none .none .none))
    (.some (.mk (some [10]) ⟨0, 1, 0, 1⟩ 1 .none .none .none .none))
    (.some (.mk (some [12]) ⟨1, 1, 1, 1⟩ 1 .none .none .none .none))

/-- The compressed form of `tEx` at threshold 100: a single pruned root
carrying the merged color 10.5. -/
def tMerged : QNode Color :=
  .mk (some [21/2]) ⟨0, 0, 1, 1⟩ 0 .none .none .none .none

/-- A 3 by 3 image: an invalid input (3 is not a power of two). -/
def pix3x3 : Grid Color := fun y x => [((3 * y + x : ℤ) : ℚ)]

/-- The tree that build returns on the invalid 3 by 3 image without raising
anything: four single-pixel leaves covering only the upper-left 2 by 2
corner of the image (row 2 and column 2 are dropped). -/
def t3x3 : QNode Color :=
  .mk none ⟨0, 0, 2, 2⟩ 0
    (.some (.mk (some [0]) ⟨0, 0, 0, 0⟩ 1 .none .none .none .none))
    (.some (.mk (some [1]) ⟨1, 0, 1, 0⟩ 1 .none .none .none .none))
    (.some (.mk (some [3]) ⟨0, 1, 0, 1⟩ 1 .none .none .none .none))
    (.some (.mk (some [4]) ⟨1, 1, 1, 1⟩ 1 .none .none .none .none))

/-- A concrete fresh output buffer (stands for the `np.empty` contents). -/
def bufE : Grid Color := fun _ _ => []

/-- A concrete fresh 2-D (grayscale) output buffer. -/
def bufQ : Grid ℚ := fun _ _ => 0

/-- A single colored grayscale node over a 1 by 1 box. -/
def leafQ : QNode ℚ := .mk (some 5) ⟨0, 0, 0, 0⟩ 0 .none .none .none .none

lemma pyInt_intCast (n : ℤ) : pyInt (n : ℚ) = n := by
  unfold pyInt
  split
  · exact Int.floor_intCast n
  · exact Int.ceil_intCast n

lemma cornersCore_even (r : Rect) (xs ys m n : ℤ)
    (hw : r.dr_x - r.ul_x + 1 = 2 * m) (hh : r.dr_y - r.ul_y + 1 = 2 * n) :
    cornersCore r xs ys =
      ⟨r.ul_x + xs * m, r.ul_y + ys * n,
       r.ul_x + xs * m + m - 1, r.ul_y + ys * n + n - 1⟩ := by
  unfold cornersCore
  rw [hw, hh]
  have h2 : ((2 * m : ℤ) : ℚ) / 2 = ((m : ℤ) : ℚ) := by push_cast; ring
  have h3 : ((2 * n : ℤ) : ℚ) / 2 = ((n : ℤ) : ℚ) := by push_cast; ring
  rw [h2, h3]
  have e1 : (r.ul_x : ℚ) + (xs : ℚ) * ((m : ℤ) : ℚ) = ((r.ul_x + xs * m : ℤ) : ℚ) := by
    push_cast; ring
  have e2 : (r.ul_y : ℚ) + (ys : ℚ) * ((n : ℤ) : ℚ) = ((r.ul_y + ys * n : ℤ) : ℚ) := by
    push_cast; ring
  have e3 : ((r.ul_x + xs * m : ℤ) : ℚ) + ((m : ℤ) : ℚ) - 1 =
      ((r.ul_x + xs * m + m - 1 : ℤ) : ℚ) := by push_cast; ring
  have e4 : ((r.ul_y + ys * n : ℤ) : ℚ) + ((n : ℤ) : ℚ) - 1 =
      ((r.ul_y + ys * n + n - 1 : ℤ) : ℚ) := by push_cast; ring
  simp only [e1, e2, pyInt_intCast, e3, e4]

lemma cic_nw (r : Rect) : compute_image_corners r "nw" = .ok (cornersCore r 0 0) := rfl

lemma cic_ne (r : Rect) : compute_image_corners r "ne" = .ok (cornersCore r 1 0) := rfl

lemma cic_sw (r : Rect) : compute_image_corners r "sw" = .ok (cornersCore r 0 1) := rfl

lemma cic_se (r : Rect) : compute_image_corners r "se" = .ok (cornersCore r 1 1) := rfl

lemma cornersCore_nw (r : Rect) (m n : ℤ) (hw : r.dr_x - r.ul_x + 1 = 2 * m)
    (hh : r.dr_y - r.ul_y + 1 = 2 * n) :
    cornersCore r 0 0 = ⟨r.ul_x, r.ul_y, r.ul_x + m - 1, r.ul_y + n - 1⟩ := by
  rw [cornersCore_even r 0 0 m n hw hh]
  simp [Rect.mk.injEq]
  try omega

lemma cornersCore_ne (r : Rect) (m n : ℤ) (hw : r.dr_x - r.ul_x + 1 = 2 * m)
    (hh : r.dr_y - r.ul_y + 1 = 2 * n) :
    cornersCore r 1 0 = ⟨r.ul_x + m, r.ul_y, r.ul_x + 2 * m - 1, r.ul_y + n - 1⟩ := by
  rw [cornersCore_even r 1 0 m n hw hh]
  simp [Rect.mk.injEq]
  try omega

lemma cornersCore_sw (r : Rect) (m n : ℤ) (hw : r.dr_x - r.ul_x + 1 = 2 * m)
    (hh : r.dr_y - r.ul_y + 1 = 2 * n) :
    cornersCore r 0 1 = ⟨r.ul_x, r.ul_y + n, r.ul_x + m - 1, r.ul_y + 2 * n - 1⟩ := by
  rw [cornersCore_even r 0 1 m n hw hh]
  simp [Rect.mk.injEq]
  try omega

lemma cornersCore_se (r : Rect) (m n : ℤ) (hw : r.dr_x - r.ul_x + 1 = 2 * m)
    (hh : r.dr_y - r.ul_y + 1 = 2 * n) :
    cornersCore r 1 1 =
      ⟨r.ul_x + m, r.ul_y + n, r.ul_x + 2 * m - 1, r.ul_y + 2 * n - 1⟩ := by
  rw [cornersCore_even r 1 1 m n hw hh]
  simp [Rect.mk.injEq]
  try omega

lemma build_master {α : Type} (k : ℕ) :
    ∀ (pix : Grid α) (r : Rect) (level : ℤ),
    r.dr_x - r.ul_x + 1 = 2 ^ k → r.dr_y - r.ul_y + 1 = 2 ^ k →
    ∃ t, build_quadtree_recursive pix (k + 1) r level = some t ∧
      t.rect = r ∧ count_nodes (.some t) = fullCount k ∧
      wfB t = true ∧ Renderable t ∧ visitsBad t = true := by
  induction k with
  | zero =>
    intro pix r level hw hh
    have hx : r.dr_x - r.ul_x = 0 := by omega
    have hy : r.dr_y - r.ul_y = 0 := by omega
    have hb : build_quadtree_recursive pix 1 r level =
        some (.mk (some (pix r.ul_y r.ul_x)) r level .none .none .none .none) := by
      rw [build_quadtree_recursive, if_pos ⟨hx, hy⟩]
    refine ⟨_, hb, rfl, ?_, ?_, ?_, ?_⟩
    · simp [count_nodes, fullCount]
    · simp [wfB]
    · exact .colored _ _ _ _ _ _ _
    · simp [visitsBad]
      omega
  | succ k ih =>
    intro pix r level hw hh
    obtain ⟨m, hm⟩ : ∃ m : ℤ, m = 2 ^ k := ⟨_, rfl⟩
    have hm1 : 1 ≤ m := by
      have := pow_pos (show (0:ℤ) < 2 by norm_num) k
      omega
    have hw2 : r.dr_x - r.ul_x + 1 = 2 * m := by rw [hw, hm, pow_succ]; ring
    have hh2 : r.dr_y - r.ul_y + 1 = 2 * m := by rw [hh, hm, pow_succ]; ring
    have hcond : ¬ (r.dr_x - r.ul_x = 0 ∧ r.dr_y - r.ul_y = 0) := by omega
    have snw : (⟨r.ul_x, r.ul_y, r.ul_x + m - 1, r.ul_y + m - 1⟩ : Rect).dr_x -
        (⟨r.ul_x, r.ul_y, r.ul_x + m - 1, r.ul_y + m - 1⟩ : Rect).ul_x + 1 = 2 ^ k := by
      simp only []
      rw [← hm]; omega
    obtain ⟨ta, hba, hra, hca, hwa, hpa, hva⟩ :=
      ih pix ⟨r.ul_x, r.ul_y, r.ul_x + m - 1, r.ul_y + m - 1⟩ (level + 1)
        (by simp only []; rw [← hm]; omega) (by simp only []; rw [← hm]; omega)
    obtain ⟨tb, hbb, hrb, hcb, hwb, hpb, hvb⟩ :=
      ih pix ⟨r.ul_x + m, r.ul_y, r.ul_x + 2 * m - 1, r.ul_y + m - 1⟩ (level + 1)
        (by simp only []; rw [← hm]; omega) (by simp only []; rw [← hm]; omega)
    obtain ⟨tc, hbc, hrc, hcc, hwc, hpc, hvc⟩ :=
      ih pix ⟨r.ul_x, r.ul_y + m, r.ul_x + m - 1, r.ul_y + 2 * m - 1⟩ (level + 1)
        (by simp only []; rw [← hm]; omega) (by simp only []; rw [← hm]; omega)
    obtain ⟨td, hbd, hrd, hcd, hwd, hpd, hvd⟩ :=
      ih pix ⟨r.ul_x + m, r.ul_y + m, r.ul_x + 2 * m - 1, r.ul_y + 2 * m - 1⟩ (level + 1)
        (by simp only []; rw [← hm]; omega) (by simp only []; rw [← hm]; omega)
    have hb : build_quadtree_recursive pix (k + 1 + 1) r level =
        some (.mk none r level (.some ta) (.some tb) (.some tc) (.some td)) := by
      rw [build_quadtree_recursive, if_neg hcond]
      rw [cic_nw, cornersCore_nw r m m hw2 hh2,
          cic_ne, cornersCore_ne r m m hw2 hh2,
          cic_sw, cornersCore_sw r m m hw2 hh2,
          cic_se, cornersCore_se r m m hw2 hh2]
      simp [Except.toOption, hba, hbb, hbc, hbd]
    refine ⟨_, hb, rfl, ?_, ?_, ?_, ?_⟩
    · simp only [count_nodes, hca, hcb, hcc, hcd, fullCount]
      ring
    · simp [wfB, hwa, hwb, hwc, hwd]
    · exact .internal r level ta tb tc td m m hm1 hm1 hw2 hh2 hra hrb hrc hrd
        hpa hpb hpc hpd
    · simp [visitsBad, hva]

lemma fullCount_eq (k : ℕ) : 1 + 3 * fullCount k = 4 ^ (k + 1) := by
  induction k with
  | zero => simp [fullCount]
  | succ k ih =>
    calc 1 + 3 * fullCount (k + 1) = 4 * (1 + 3 * fullCount k) := by
          rw [fullCount]; ring
      _ = 4 * 4 ^ (k + 1) := by rw [ih]
      _ = 4 ^ (k + 1 + 1) := by rw [pow_succ]; ring

lemma max_num_nodes_pow (k : ℕ) :
    max_num_nodes (k + 1) ((2 : ℚ) ^ k) = some ((fullCount k : ℕ) : ℚ) := by
  induction k with
  | zero => simp [max_num_nodes, fullCount]
  | succ k ih =>
    have hne : ((2 : ℚ) ^ (k + 1)) ≠ 1 :=
      ne_of_gt (one_lt_pow₀ (by norm_num) (Nat.succ_ne_zero k))
    have hdiv : (2 : ℚ) ^ (k + 1) / 2 = 2 ^ k := by
      rw [pow_succ]; field_simp
    rw [max_num_nodes, if_neg hne, hdiv, ih]
    simp only [Option.map_some']
    congr 1
    have h4 : (1 : ℚ) + 3 * ((fullCount k : ℕ) : ℚ) = 4 ^ (k + 1) := by
      exact_mod_cast fullCount_eq k
    have hfc1 : ((fullCount (k + 1) : ℕ) : ℚ) = 1 + 4 * ((fullCount k : ℕ) : ℚ) := by
      rw [fullCount]; push_cast; ring
    have h42 : (2 : ℚ) ^ (k + 1) * 2 ^ (k + 1) = 4 ^ (k + 1) := by
      rw [← mul_pow]; norm_num
    rw [h42, hfc1]
    linarith

lemma max_num_nodes_stuck (fuel : ℕ) :
    ∀ q : ℚ, (∀ m : ℤ, q ≠ 2 ^ m) → max_num_nodes fuel q = none := by
  induction fuel with
  | zero => intro q _; rfl
  | succ fuel ih =>
    intro q h
    have h1 : q ≠ 1 := fun e => h 0 (by rw [e]; norm_num)
    rw [max_num_nodes, if_neg h1, ih (q / 2) ?_]
    · rfl
    · intro m e
      apply h (m + 1)
      have e2 : q = 2 ^ m * 2 := by
        rw [← e]; field_simp
      rw [e2, zpow_add_one₀ (by norm_num : (2 : ℚ) ≠ 0) m]

lemma cast_ne_zpow_two (N : ℕ) (hpos : 0 < N) (hnp : ¬ ∃ k : ℕ, N = 2 ^ k) :
    ∀ m : ℤ, (N : ℚ) ≠ 2 ^ m := by
  intro m e
  rcases le_or_lt 0 m with hm | hm
  · lift m to ℕ using hm
    rw [zpow_natCast] at e
    exact hnp ⟨m, by exact_mod_cast e⟩
  · have hlt : (2 : ℚ) ^ m < 1 := zpow_lt_one_of_neg₀ (by norm_num) hm
    have : (1 : ℚ) ≤ (N : ℚ) := by exact_mod_cast hpos
    rw [e] at this
    linarith

lemma inRect_def (r : Rect) (x y : ℤ) :
    inRect r x y ↔ r.ul_x ≤ x ∧ x ≤ r.dr_x ∧ r.ul_y ≤ y ∧ y ≤ r.dr_y :=
  Iff.rfl

lemma render_exact (k : ℕ) :
    ∀ (pix : Grid Color) (r : Rect) (level : ℤ) (t : QNode Color),
    r.dr_x - r.ul_x + 1 = 2 ^ k → r.dr_y - r.ul_y + 1 = 2 ^ k →
    build_quadtree_recursive pix (k + 1) r level = some t →
    ∀ buf, ∃ b, quadtree_to_image_recursive false t buf = some b ∧
      (∀ x y, inRect r x y → b y x = pix y x) ∧
      (∀ x y, ¬ inRect r x y → b y x = buf y x) := by
  induction k with
  | zero =>
    intro pix r level t hw hh hb buf
    have hx : r.dr_x - r.ul_x = 0 := by omega
    have hy : r.dr_y - r.ul_y = 0 := by omega
    rw [build_quadtree_recursive, if_pos ⟨hx, hy⟩] at hb
    rw [Option.some.injEq] at hb
    subst hb
    refine ⟨_, rfl, ?_, ?_⟩
    · intro x y hin
      have hx2 : x = r.ul_x := by rw [inRect_def] at hin; omega
      have hy2 : y = r.ul_y := by rw [inRect_def] at hin; omega
      subst hx2; subst hy2
      simp [draw_color, hin]
    · intro x y hout
      simp [draw_color, hout]
  | succ k ih =>
    intro pix r level t hw hh hb buf
    obtain ⟨m, hm⟩ : ∃ m : ℤ, m = 2 ^ k := ⟨_, rfl⟩
    have hm1 : 1 ≤ m := by
      have := pow_pos (show (0:ℤ) < 2 by norm_num) k
      omega
    have hw2 : r.dr_x - r.ul_x + 1 = 2 * m := by rw [hw, hm, pow_succ]; ring
    have hh2 : r.dr_y - r.ul_y + 1 = 2 * m := by rw [hh, hm, pow_succ]; ring
    have hcond : ¬ (r.dr_x - r.ul_x = 0 ∧ r.dr_y - r.ul_y = 0) := by omega
    rw [build_quadtree_recursive, if_neg hcond] at hb
    rw [cic_nw, cornersCore_nw r m m hw2 hh2, cic_ne, cornersCore_ne r m m hw2 hh2,
        cic_sw, cornersCore_sw r m m hw2 hh2, cic_se, cornersCore_se r m m hw2 hh2] at hb
    simp only [Except.toOption, Option.bind_eq_bind', Option.some_bind] at hb
    rcases hba : build_quadtree_recursive pix (k + 1)
        ⟨r.ul_x, r.ul_y, r.ul_x + m - 1, r.ul_y + m - 1⟩ (level + 1) with _ | ta
    · rw [hba] at hb; exact absurd hb (by simp)
    rw [hba] at hb
    simp only [Option.some_bind] at hb
    rcases hbb : build_quadtree_recursive pix (k + 1)
        ⟨r.ul_x + m, r.ul_y, r.ul_x + 2 * m - 1, r.ul_y + m - 1⟩ (level + 1) with _ | tb
    · rw [hbb] at hb; exact absurd hb (by simp)
    rw [hbb] at hb
    simp only [Option.some_bind] at hb
    rcases hbc : build_quadtree_recursive pix (k + 1)
        ⟨r.ul_x, r.ul_y + m, r.ul_x + m - 1, r.ul_y + 2 * m - 1⟩ (level + 1) with _ | tc
    · rw [hbc] at hb; exact absurd hb (by simp)
    rw [hbc] at hb
    simp only [Option.some_bind] at hb
    rcases hbd : build_quadtree_recursive pix (k + 1)
        ⟨r.ul_x + m, r.ul_y + m, r.ul_x + 2 * m - 1, r.ul_y + 2 * m - 1⟩ (level + 1) with _ | td
    · rw [hbd] at hb; exact absurd hb (by simp)
    rw [hbd] at hb
    simp only [Option.some_bind, Option.pure_def, Option.some.injEq] at hb
    subst hb
    have sq : ∀ u v : ℤ, (⟨u, v, u + m - 1, v + m - 1⟩ : Rect).dr_x -
        (⟨u, v, u + m - 1, v + m - 1⟩ : Rect).ul_x + 1 = 2 ^ k := by
      intro u v; simp only []; omega
    obtain ⟨b1, he1, hin1, hout1⟩ :=
      ih pix ⟨r.ul_x, r.ul_y, r.ul_x + m - 1, r.ul_y + m - 1⟩ (level + 1) ta
        (by simp only []; omega) (by simp only []; omega) hba buf
    obtain ⟨b2, he2, hin2, hout2⟩ :=
      ih pix ⟨r.ul_x + m, r.ul_y, r.ul_x + 2 * m - 1, r.ul_y + m - 1⟩ (level + 1) tb
        (by simp only []; omega) (by simp only []; omega) hbb b1
    obtain ⟨b3, he3, hin3, hout3⟩ :=
      ih pix ⟨r.ul_x, r.ul_y + m, r.ul_x + m - 1, r.ul_y + 2 * m - 1⟩ (level + 1) tc
        (by simp only []; omega) (by simp only []; omega) hbc b2
    obtain ⟨b4, he4, hin4, hout4⟩ :=
      ih pix ⟨r.ul_x + m, r.ul_y + m, r.ul_x + 2 * m - 1, r.ul_y + 2 * m - 1⟩ (level + 1) td
        (by simp only []; omega) (by simp only []; omega) hbd b3
    refine ⟨b4, ?_, ?_, ?_⟩
    · simp only [quadtree_to_image_recursive, he1, Option.bind_eq_bind', Option.some_bind,
        he2, he3, he4]
    · intro x y hin
      rw [inRect_def] at hin
      by_cases hxm : x ≤ r.ul_x + m - 1 <;> by_cases hym : y ≤ r.ul_y + m - 1
      · rw [hout4 x y (by simp only [inRect_def]; omega), hout3 x y (by simp only [inRect_def]; omega),
            hout2 x y (by simp only [inRect_def]; omega)]
        exact hin1 x y (by simp only [inRect_def]; omega)
      · rw [hout4 x y (by simp only [inRect_def]; omega)]
        exact hin3 x y (by simp only [inRect_def]; omega)
      · rw [hout4 x y (by simp only [inRect_def]; omega), hout3 x y (by simp only [inRect_def]; omega)]
        exact hin2 x y (by simp only [inRect_def]; omega)
      · exact hin4 x y (by simp only [inRect_def]; omega)
    · intro x y hout
      rw [inRect_def] at hout
      rw [hout4 x y (by simp only [inRect_def]; omega), hout3 x y (by simp only [inRect_def]; omega),
          hout2 x y (by simp only [inRect_def]; omega)]
      exact hout1 x y (by simp only [inRect_def]; omega)

lemma render_patch : ∀ t : QNode Color, Renderable t →
    ∃ f : Grid Color, ∀ buf : Grid Color,
      quadtree_to_image_recursive false t buf =
        some (fun y x => if inRect t.rect x y then f y x else buf y x) := by
  intro t h
  induction h with
  | colored c r l nw ne sw se => exact ⟨fun _ _ => c, fun _ => rfl⟩
  | internal r l a b c d m n hm hn hw hh ha hb hc hd pa pb pc pd iha ihb ihc ihd =>
    obtain ⟨fa, hfa⟩ := iha
    obtain ⟨fb, hfb⟩ := ihb
    obtain ⟨fc, hfc⟩ := ihc
    obtain ⟨fd, hfd⟩ := ihd
    rw [ha] at hfa; rw [hb] at hfb; rw [hc] at hfc; rw [hd] at hfd
    refine ⟨fun y x =>
      if x ≤ r.ul_x + m - 1 ∧ y ≤ r.ul_y + n - 1 then fa y x
      else if r.ul_x + m ≤ x ∧ y ≤ r.ul_y + n - 1 then fb y x
      else if x ≤ r.ul_x + m - 1 ∧ r.ul_y + n ≤ y then fc y x
      else fd y x, ?_⟩
    intro buf
    simp only [quadtree_to_image_recursive, hfa, Option.bind_eq_bind', Option.some_bind,
      hfb, hfc, hfd, QNode.rect]
    congr 1
    funext y x
    simp only [inRect_def]
    split_ifs <;> first | rfl | (exfalso; omega)


lemma compress_preserve (τ : ℚ) (N : ℕ) :
    ∀ (t : QNode Color), sizeOf t ≤ N → wfB t = true → Renderable t →
    ∃ t2, compress_quadtree_recursive τ t = some t2 ∧
      wfB t2 = true ∧ Renderable t2 ∧ t2.rect = t.rect := by
  induction N with
  | zero =>
    intro t hs _ _
    exfalso
    cases t with
    | mk c r l nw ne sw se => simp [QNode.mk.sizeOf_spec] at hs
  | succ N ih =>
    intro t hs hwf hr
    cases t with
    | mk c r l nw ne sw se =>
      rcases nw with _ | a <;> rcases ne with _ | b <;> rcases sw with _ | c2 <;>
        rcases se with _ | d
      case none.none.none.none =>
        exact ⟨_, rfl, hwf, hr, rfl⟩
      case some.some.some.some =>
        simp only [wfB, Bool.and_eq_true] at hwf
        obtain ⟨⟨⟨⟨hc, hwa⟩, hwb⟩, hwc⟩, hwd⟩ := hwf
        rw [Option.isNone_iff_eq_none] at hc
        subst hc
        cases hr with
        | internal _ _ _ _ _ _ m n hm hn hw hh ha hb hc hd pa pb pc pd =>
          have hsz : sizeOf a ≤ N ∧ sizeOf b ≤ N ∧ sizeOf c2 ≤ N ∧ sizeOf d ≤ N := by
            simp [QNode.mk.sizeOf_spec, OptNode.some.sizeOf_spec] at hs
            omega
          obtain ⟨a2, hca, hwa2, hpa2, hra2⟩ := ih a hsz.1 hwa pa
          obtain ⟨b2, hcb, hwb2, hpb2, hrb2⟩ := ih b hsz.2.1 hwb pb
          obtain ⟨c3, hcc, hwc2, hpc2, hrc2⟩ := ih c2 hsz.2.2.1 hwc pc
          obtain ⟨d2, hcd, hwd2, hpd2, hrd2⟩ := ih d hsz.2.2.2 hwd pd
          rcases hcol : combine_colors a2.color b2.color c3.color d2.color τ with _ | col
          · refine ⟨.mk none r l (.some a2) (.some b2) (.some c3) (.some d2), ?_, ?_, ?_, rfl⟩
            · simp only [compress_quadtree_recursive, hca, hcb, hcc, hcd,
                Option.bind_eq_bind', Option.some_bind, hcol, Option.pure_def]
            · simp [wfB, hwa2, hwb2, hwc2, hwd2]
            · exact .internal r l a2 b2 c3 d2 m n hm hn hw hh
                (hra2.trans ha) (hrb2.trans hb) (hrc2.trans hc) (hrd2.trans hd)
                hpa2 hpb2 hpc2 hpd2
          · refine ⟨.mk (some col) r l .none .none .none .none, ?_, ?_, ?_, rfl⟩
            · simp only [compress_quadtree_recursive, hca, hcb, hcc, hcd,
                Option.bind_eq_bind', Option.some_bind, hcol, Option.pure_def]
            · simp [wfB]
            · exact .colored _ _ _ _ _ _ _
      all_goals simp [wfB] at hwf

lemma compress_idem (τ : ℚ) (N : ℕ) :
    ∀ (t t2 : QNode Color), sizeOf t ≤ N →
    compress_quadtree_recursive τ t = some t2 →
    compress_quadtree_recursive τ t2 = some t2 := by
  induction N with
  | zero =>
    intro t t2 hs _
    exfalso
    cases t with
    | mk c r l nw ne sw se => simp [QNode.mk.sizeOf_spec] at hs
  | succ N ih =>
    intro t t2 hs hc
    cases t with
    | mk c r l nw ne sw se =>
      rcases nw with _ | a <;> rcases ne with _ | b <;> rcases sw with _ | c2 <;>
        rcases se with _ | d
      case none.none.none.none =>
        simp only [compress_quadtree_recursive, Option.some.injEq] at hc
        subst hc
        rfl
      case some.some.some.some =>
        have hsz : sizeOf a ≤ N ∧ sizeOf b ≤ N ∧ sizeOf c2 ≤ N ∧ sizeOf d ≤ N := by
          simp [QNode.mk.sizeOf_spec, OptNode.some.sizeOf_spec] at hs
          omega
        simp only [compress_quadtree_recursive, Option.bind_eq_bind'] at hc
        rcases hca : compress_quadtree_recursive τ a with _ | a2
        · rw [hca] at hc; exact absurd hc (by simp)
        rw [hca] at hc
        simp only [Option.some_bind] at hc
        rcases hcb : compress_quadtree_recursive τ b with _ | b2
        · rw [hcb] at hc; exact absurd hc (by simp)
        rw [hcb] at hc
        simp only [Option.some_bind] at hc
        rcases hcc : compress_quadtree_recursive τ c2 with _ | c3
        · rw [hcc] at hc; exact absurd hc (by simp)
        rw [hcc] at hc
        simp only [Option.some_bind] at hc
        rcases hcd : compress_quadtree_recursive τ d with _ | d2
        · rw [hcd] at hc; exact absurd hc (by simp)
        rw [hcd] at hc
        simp only [Option.some_bind] at hc
        rcases hcol : combine_colors a2.color b2.color c3.color d2.color τ with _ | col <;>
          rw [hcol] at hc <;> simp only [Option.pure_def, Option.some.injEq] at hc <;>
          subst hc
        · simp only [compress_quadtree_recursive, Option.bind_eq_bind',
            ih a a2 hsz.1 hca, Option.some_bind, ih b b2 hsz.2.1 hcb,
            ih c2 c3 hsz.2.2.1 hcc, ih d d2 hsz.2.2.2 hcd, hcol, Option.pure_def]
        · rfl
      all_goals exact absurd hc (by simp [compress_quadtree_recursive])

lemma compress_wf (τ : ℚ) (N : ℕ) :
    ∀ (t : QNode Color), sizeOf t ≤ N → wfB t = true →
    ∃ t2, compress_quadtree_recursive τ t = some t2 ∧ wfB t2 = true := by
  induction N with
  | zero =>
    intro t hs _
    exfalso
    cases t with
    | mk c r l nw ne sw se => simp [QNode.mk.sizeOf_spec] at hs
  | succ N ih =>
    intro t hs hwf
    cases t with
    | mk c r l nw ne sw se =>
      rcases nw with _ | a <;> rcases ne with _ | b <;> rcases sw with _ | c2 <;>
        rcases se with _ | d
      case none.none.none.none => exact ⟨_, rfl, hwf⟩
      case some.some.some.some =>
        simp only [wfB, Bool.and_eq_true] at hwf
        obtain ⟨⟨⟨⟨hc, hwa⟩, hwb⟩, hwc⟩, hwd⟩ := hwf
        have hsz : sizeOf a ≤ N ∧ sizeOf b ≤ N ∧ sizeOf c2 ≤ N ∧ sizeOf d ≤ N := by
          simp [QNode.mk.sizeOf_spec, OptNode.some.sizeOf_spec] at hs
          omega
        obtain ⟨a2, hca, hwa2⟩ := ih a hsz.1 hwa
        obtain ⟨b2, hcb, hwb2⟩ := ih b hsz.2.1 hwb
        obtain ⟨c3, hcc, hwc2⟩ := ih c2 hsz.2.2.1 hwc
        obtain ⟨d2, hcd, hwd2⟩ := ih d hsz.2.2.2 hwd
        rcases hcol : combine_colors a2.color b2.color c3.color d2.color τ with _ | col
        · refine ⟨.mk none r l (.some a2) (.some b2) (.some c3) (.some d2), ?_, ?_⟩
          · simp only [compress_quadtree_recursive, hca, hcb, hcc, hcd,
              Option.bind_eq_bind', Option.some_bind, hcol, Option.pure_def]
          · simp [wfB, hwa2, hwb2, hwc2, hwd2]
        · refine ⟨.mk (some col) r l .none .none .none .none, ?_, ?_⟩
          · simp only [compress_quadtree_recursive, hca, hcb, hcc, hcd,
              Option.bind_eq_bind', Option.some_bind, hcol, Option.pure_def]
          · simp [wfB]
      all_goals simp [wfB] at hwf

lemma render2d_box_fails (N : ℕ) :
    ∀ (t : QNode ℚ), sizeOf t ≤ N → visitsBad t = true →
    ∀ buf, quadtree_to_image_recursive_2d true t buf = none := by
  induction N with
  | zero =>
    intro t hs _
    exfalso
    cases t with
    | mk c r l nw ne sw se => simp [QNode.mk.sizeOf_spec] at hs
  | succ N ih =>
    intro t hs hv buf
    cases t with
    | mk c r l nw ne sw se =>
      rcases c with _ | v
      · rcases nw with _ | a <;> rcases ne with _ | b <;> rcases sw with _ | c2 <;>
          rcases se with _ | d
        case none.some.some.some.some =>
          have hsz : sizeOf a ≤ N ∧ sizeOf b ≤ N ∧ sizeOf c2 ≤ N ∧ sizeOf d ≤ N := by
            simp [QNode.mk.sizeOf_spec, OptNode.some.sizeOf_spec] at hs
            omega
          simp only [visitsBad, Bool.or_eq_true] at hv
          simp only [quadtree_to_image_recursive_2d, Option.bind_eq_bind']
          rcases hv with ((hva | hvb) | hvc) | hvd
          · rw [ih a hsz.1 hva buf]
            rfl
          · rcases ha : quadtree_to_image_recursive_2d true a buf with _ | b1
            · rfl
            · simp only [Option.some_bind, ih b hsz.2.1 hvb b1]
              rfl
          · rcases ha : quadtree_to_image_recursive_2d true a buf with _ | b1
            · rfl
            simp only [Option.some_bind]
            rcases hb : quadtree_to_image_recursive_2d true b b1 with _ | b2
            · rfl
            simp only [Option.some_bind, ih c2 hsz.2.2.1 hvc b2]
            rfl
          · rcases ha : quadtree_to_image_recursive_2d true a buf with _ | b1
            · rfl
            simp only [Option.some_bind]
            rcases hb : quadtree_to_image_recursive_2d true b b1 with _ | b2
            · rfl
            simp only [Option.some_bind]
            rcases hcx : quadtree_to_image_recursive_2d true c2 b2 with _ | b3
            · rfl
            simp only [Option.some_bind, ih d hsz.2.2.2 hvd b3]
        all_goals simp [visitsBad] at hv
      · simp only [visitsBad, Bool.or_eq_true, decide_eq_true_eq] at hv
        have hbad : ¬ (r.dr_y - r.ul_y + 1 = 3 ∧ r.dr_x - r.ul_x + 1 = 3) := by
          rcases hv with h | h
          · exact fun hcon => h hcon.1
          · exact fun hcon => h hcon.2
        simp [quadtree_to_image_recursive_2d, draw_color_2d, hbad]


/-- Concrete evaluation: build on the 2 by 2 example image. -/
lemma build_pixA : build_quadtree pixA 2 2 2 = some tEx := by
  have h1 : cornersCore ⟨0, 0, 1, 1⟩ 0 0 = ⟨0, 0, 0, 0⟩ := by
    norm_num [cornersCore, pyInt]
  have h2 : cornersCore ⟨0, 0, 1, 1⟩ 1 0 = ⟨1, 0, 1, 0⟩ := by
    norm_num [cornersCore, pyInt]
  have h3 : cornersCore ⟨0, 0, 1, 1⟩ 0 1 = ⟨0, 1, 0, 1⟩ := by
    norm_num [cornersCore, pyInt]
  have h4 : cornersCore ⟨0, 0, 1, 1⟩ 1 1 = ⟨1, 1, 1, 1⟩ := by
    norm_num [cornersCore, pyInt]
  show build_quadtree_recursive pixA 2 ⟨0, 0, 2 - 1, 2 - 1⟩ 0 = some tEx
  rw [build_quadtree_recursive]
  norm_num
  rw [cic_nw, cic_ne, cic_sw, cic_se, h1, h2, h3, h4]
  simp only [Except.toOption, Option.bind_eq_bind', Option.some_bind]
  rw [build_quadtree_recursive]
  norm_num [pixA]
  rw [build_quadtree_recursive]
  norm_num [pixA]
  rw [build_quadtree_recursive]
  norm_num [pixA]
  rw [build_quadtree_recursive]
  norm_num [pixA, tEx]

/-- Concrete evaluation: compressing the 2 by 2 example tree at threshold
100 merges everything into a single root of color 10.5. -/
lemma compress_tEx : compress_quadtree_recursive 100 tEx = some tMerged := by
  show compress_quadtree_recursive 100 (.mk none ⟨0, 0, 1, 1⟩ 0
    (.some (.mk (some [10]) ⟨0, 0, 0, 0⟩ 1 .none .none .none .none))
    (.some (.mk (some [10]) ⟨1, 0, 1, 0⟩ 1 .none .none .none .none))
    (.some (.mk (some [10]) ⟨0, 1, 0, 1⟩ 1 .none .none .none .none))
    (.some (.mk (some [12]) ⟨1, 1, 1, 1⟩ 1 .none .none .none .none))) = some tMerged
  have hcomb : combine_colors (some [10]) (some [10]) (some [10]) (some [12]) 100 =
      some [21/2] := by
    norm_num [combine_colors, npVar4C, npVar4, npMean4, npMean4C]
  simp only [compress_quadtree_recursive, Option.bind_eq_bind', Option.some_bind,
    QNode.color, hcomb, Option.pure_def, tMerged]

/-- Concrete evaluation: build on the invalid 3 by 3 image returns a tree
(no dimension check exists in the source, nothing is raised). -/
lemma build_pix3x3 : build_quadtree pix3x3 3 3 2 = some t3x3 := by
  have h1 : cornersCore ⟨0, 0, 2, 2⟩ 0 0 = ⟨0, 0, 0, 0⟩ := by
    norm_num [cornersCore, pyInt]
  have h2 : cornersCore ⟨0, 0, 2, 2⟩ 1 0 = ⟨1, 0, 1, 0⟩ := by
    norm_num [cornersCore, pyInt]
  have h3 : cornersCore ⟨0, 0, 2, 2⟩ 0 1 = ⟨0, 1, 0, 1⟩ := by
    norm_num [cornersCore, pyInt]
  have h4 : cornersCore ⟨0, 0, 2, 2⟩ 1 1 = ⟨1, 1, 1, 1⟩ := by
    norm_num [cornersCore, pyInt]
  show build_quadtree_recursive pix3x3 2 ⟨0, 0, 3 - 1, 3 - 1⟩ 0 = some t3x3
  rw [build_quadtree_recursive]
  norm_num
  rw [cic_nw, cic_ne, cic_sw, cic_se, h1, h2, h3, h4]
  simp only [Except.toOption, Option.bind_eq_bind', Option.some_bind]
  rw [build_quadtree_recursive]
  norm_num [pix3x3]
  rw [build_quadtree_recursive]
  norm_num [pix3x3]
  rw [build_quadtree_recursive]
  norm_num [pix3x3]
  rw [build_quadtree_recursive]
  norm_num [pix3x3, t3x3]

/-- Claim C1: for every valid input image (square, side length a power of
two), building the quadtree and rendering it without compression
(draw_box false) produces an output buffer equal to the original image
pixel for pixel. -/
theorem claim_C1_lossless_roundtrip (k : ℕ) (pix : Grid Color) :
    ∃ t, build_quadtree pix (2 ^ k) (2 ^ k) (k + 1) = some t ∧
      ∀ (fresh : Grid Color) (shape : List ℕ), ∃ p,
        quadtree_to_image fresh t shape false = some p ∧
        ∀ x y : ℤ, 0 ≤ x → x < 2 ^ k → 0 ≤ y → y < 2 ^ k → p.1 y x = pix y x := by
  have h1 : ((⟨0, 0, 2 ^ k - 1, 2 ^ k - 1⟩ : Rect)).dr_x -
      (⟨0, 0, 2 ^ k - 1, 2 ^ k - 1⟩ : Rect).ul_x + 1 = 2 ^ k := by
    simp only []
    omega
  have h2 : ((⟨0, 0, 2 ^ k - 1, 2 ^ k - 1⟩ : Rect)).dr_y -
      (⟨0, 0, 2 ^ k - 1, 2 ^ k - 1⟩ : Rect).ul_y + 1 = 2 ^ k := by
    simp only []
    omega
  obtain ⟨t, hb, -, -, -, -, -⟩ :=
    build_master k pix ⟨0, 0, 2 ^ k - 1, 2 ^ k - 1⟩ 0 h1 h2
  refine ⟨t, hb, ?_⟩
  intro fresh shape
  obtain ⟨b, he, hin, -⟩ :=
    render_exact k pix ⟨0, 0, 2 ^ k - 1, 2 ^ k - 1⟩ 0 t h1 h2 hb fresh
  refine ⟨(b, npSqueeze shape), ?_, ?_⟩
  · simp [quadtree_to_image, he]
  · intro x y hx0 hxk hy0 hyk
    exact hin x y (by simp only [inRect_def]; omega)

/-- Witness for C1 at the concrete 2 by 2 image `pixA`, pixel (0, 0). -/
theorem claim_C1_witness :
    ∃ t, build_quadtree pixA (2 ^ 1) (2 ^ 1) (1 + 1) = some t ∧
      ∃ p, quadtree_to_image bufE t [2, 2] false = some p ∧ p.1 0 0 = pixA 0 0 := by
  obtain ⟨t, hb, hrest⟩ := claim_C1_lossless_roundtrip 1 pixA
  obtain ⟨p, hp, hpix⟩ := hrest bufE [2, 2]
  exact ⟨t, hb, p, hp, hpix 0 0 (by norm_num) (by norm_num) (by norm_num) (by norm_num)⟩

/-- Claim C2: for every valid image of side `2 ^ k`, the node count of the
freshly built tree equals the value of the `max_num_nodes` oracle at the
side length. -/
theorem claim_C2_full_count (k : ℕ) (pix : Grid Color) :
    ∃ t M, build_quadtree pix (2 ^ k) (2 ^ k) (k + 1) = some t ∧
      max_num_nodes (k + 1) ((2 : ℚ) ^ k) = some M ∧
      ((count_nodes (.some t) : ℕ) : ℚ) = M := by
  have h1 : ((⟨0, 0, 2 ^ k - 1, 2 ^ k - 1⟩ : Rect)).dr_x -
      (⟨0, 0, 2 ^ k - 1, 2 ^ k - 1⟩ : Rect).ul_x + 1 = 2 ^ k := by
    simp only []
    omega
  have h2 : ((⟨0, 0, 2 ^ k - 1, 2 ^ k - 1⟩ : Rect)).dr_y -
      (⟨0, 0, 2 ^ k - 1, 2 ^ k - 1⟩ : Rect).ul_y + 1 = 2 ^ k := by
    simp only []
    omega
  obtain ⟨t, hb, -, hcount, -, -, -⟩ :=
    build_master k pix ⟨0, 0, 2 ^ k - 1, 2 ^ k - 1⟩ 0 h1 h2
  exact ⟨t, ((fullCount k : ℕ) : ℚ), hb, max_num_nodes_pow k, by rw [hcount]⟩

/-- Claim C3: compressing is idempotent: on trees produced by build, one
compression succeeds, and whenever compressing a tree succeeds,
compressing the result again returns that result unchanged (same colors,
same pruned structure). -/
theorem claim_C3_compress_idempotent :
    (∀ (τ : ℚ) (k : ℕ) (pix : Grid Color) (t : QNode Color),
        build_quadtree pix (2 ^ k) (2 ^ k) (k + 1) = some t →
        ∃ t2, compress_quadtree_recursive τ t = some t2) ∧
    (∀ (τ : ℚ) (t t2 : QNode Color),
        compress_quadtree_recursive τ t = some t2 →
        compress_quadtree_recursive τ t2 = some t2) := by
  constructor
  · intro τ k pix t hb
    have h1 : ((⟨0, 0, 2 ^ k - 1, 2 ^ k - 1⟩ : Rect)).dr_x -
        (⟨0, 0, 2 ^ k - 1, 2 ^ k - 1⟩ : Rect).ul_x + 1 = 2 ^ k := by
      simp only []
      omega
    have h2 : ((⟨0, 0, 2 ^ k - 1, 2 ^ k - 1⟩ : Rect)).dr_y -
        (⟨0, 0, 2 ^ k - 1, 2 ^ k - 1⟩ : Rect).ul_y + 1 = 2 ^ k := by
      simp only []
      omega
    obtain ⟨t9, hb9, -, -, hwf, -, -⟩ :=
      build_master k pix ⟨0, 0, 2 ^ k - 1, 2 ^ k - 1⟩ 0 h1 h2
    have hb2 : build_quadtree_recursive pix (k + 1) ⟨0, 0, 2 ^ k - 1, 2 ^ k - 1⟩ 0 =
        some t := hb
    rw [hb9, Option.some.injEq] at hb2
    subst hb2
    obtain ⟨t2, hc, -⟩ := compress_wf τ (sizeOf t9) t9 le_rfl hwf
    exact ⟨t2, hc⟩
  · intro τ t t2 hc
    exact compress_idem τ (sizeOf t) t t2 le_rfl hc

/-- Witness for C3 at the concrete 2 by 2 example tree and threshold 100. -/
theorem claim_C3_witness :
    compress_quadtree_recursive 100 tEx = some tMerged ∧
    compress_quadtree_recursive 100 tMerged = some tMerged :=
  ⟨compress_tEx, claim_C3_compress_idempotent.2 100 tEx tMerged compress_tEx⟩

/-- Claim C4: combine_colors returns absent when any of the four child
colors is absent; when all four are present it returns the channelwise
mean exactly when the summed channelwise population variance (divisor 4)
is below the threshold, and absent otherwise; on the concrete colors
[10], [10], [10], [12] the difference is 0.75 and the merged color at
threshold 100 is 10.5. -/
theorem claim_C4_combine_colors :
    (∀ (c2 c3 c4 : Option Color) (τ : ℚ), combine_colors none c2 c3 c4 τ = none) ∧
    (∀ (c1 c3 c4 : Option Color) (τ : ℚ), combine_colors c1 none c3 c4 τ = none) ∧
    (∀ (c1 c2 c4 : Option Color) (τ : ℚ), combine_colors c1 c2 none c4 τ = none) ∧
    (∀ (c1 c2 c3 : Option Color) (τ : ℚ), combine_colors c1 c2 c3 none τ = none) ∧
    (∀ (c1 c2 c3 c4 : Color) (τ : ℚ), (npVar4C c1 c2 c3 c4).sum < τ →
        combine_colors (some c1) (some c2) (some c3) (some c4) τ =
          some (npMean4C c1 c2 c3 c4)) ∧
    (∀ (c1 c2 c3 c4 : Color) (τ : ℚ), ¬ (npVar4C c1 c2 c3 c4).sum < τ →
        combine_colors (some c1) (some c2) (some c3) (some c4) τ = none) ∧
    (npVar4C [10] [10] [10] [12]).sum = 3 / 4 ∧
    combine_colors (some [10]) (some [10]) (some [10]) (some [12]) 100 =
      some [21 / 2] := by
  refine ⟨?_, ?_, ?_, ?_, ?_, ?_, ?_, ?_⟩
  · intro c2 c3 c4 τ; rfl
  · intro c1 c3 c4 τ; cases c1 <;> rfl
  · intro c1 c2 c4 τ; cases c1 <;> cases c2 <;> rfl
  · intro c1 c2 c3 τ; cases c1 <;> cases c2 <;> cases c3 <;> rfl
  · intro c1 c2 c3 c4 τ h; simp [combine_colors, if_pos h]
  · intro c1 c2 c3 c4 τ h; simp [combine_colors, if_neg h]
  · norm_num [npVar4C, npVar4, npMean4]
  · norm_num [combine_colors, npVar4C, npVar4, npMean4, npMean4C]

/-- Witness for C4: the threshold test at the concrete spec scenario. -/
theorem claim_C4_witness :
    (npVar4C [10] [10] [10] [12]).sum < 100 ∧
    combine_colors (some [10]) (some [10]) (some [10]) (some [12]) 100 =
      some (npMean4C [10] [10] [10] [12]) :=
  ⟨by norm_num [npVar4C, npVar4, npMean4],
   claim_C4_combine_colors.2.2.2.2.1 [10] [10] [10] [12] 100
     (by norm_num [npVar4C, npVar4, npMean4])⟩

/-- Claim C5: after build every reachable node has a present color exactly
when all four child slots are absent and an absent color exactly when all
four are present (checked recursively by `wfB`), and one run of compress
preserves this invariant. -/
theorem claim_C5_invariant :
    (∀ (k : ℕ) (pix : Grid Color) (t : QNode Color),
        build_quadtree pix (2 ^ k) (2 ^ k) (k + 1) = some t → wfB t = true) ∧
    (∀ (τ : ℚ) (t : QNode Color), wfB t = true →
        ∃ t2, compress_quadtree_recursive τ t = some t2 ∧ wfB t2 = true) := by
  constructor
  · intro k pix t hb
    have h1 : ((⟨0, 0, 2 ^ k - 1, 2 ^ k - 1⟩ : Rect)).dr_x -
        (⟨0, 0, 2 ^ k - 1, 2 ^ k - 1⟩ : Rect).ul_x + 1 = 2 ^ k := by
      simp only []
      omega
    have h2 : ((⟨0, 0, 2 ^ k - 1, 2 ^ k - 1⟩ : Rect)).dr_y -
        (⟨0, 0, 2 ^ k - 1, 2 ^ k - 1⟩ : Rect).ul_y + 1 = 2 ^ k := by
      simp only []
      omega
    obtain ⟨t9, hb9, -, -, hwf, -, -⟩ :=
      build_master k pix ⟨0, 0, 2 ^ k - 1, 2 ^ k - 1⟩ 0 h1 h2
    have hb2 : build_quadtree_recursive pix (k + 1) ⟨0, 0, 2 ^ k - 1, 2 ^ k - 1⟩ 0 =
        some t := hb
    rw [hb9, Option.some.injEq] at hb2
    subst hb2
    exact hwf
  · intro τ t hwf
    exact compress_wf τ (sizeOf t) t le_rfl hwf

/-- Witness for C5: the invariant at the concrete 2 by 2 example tree, and
its preservation under compress at threshold 100. -/
theorem claim_C5_witness :
    wfB tEx = true ∧
    ∃ t2, compress_quadtree_recursive 100 tEx = some t2 ∧ wfB t2 = true :=
  ⟨by simp [tEx, wfB], claim_C5_invariant.2 100 tEx (by simp [tEx, wfB])⟩

/-- Claim C6 counterexample: the claim says every invalid image is rejected
with an InvalidImageDimensions error before recursion and no tree is
returned; but build performs no dimension validation at all, and on the
invalid 3 by 3 image it succeeds and returns a tree. -/
theorem claim_C6_counterexample : build_quadtree pix3x3 3 3 2 = some t3x3 :=
  build_pix3x3

/-- Claim C6 amended: build performs no dimension validation (there is no
InvalidImageDimensions check in the source); on the invalid 3 by 3 image
it succeeds and returns a tree covering only part of the image, and on
every image satisfying the power-of-two precondition it succeeds as
well. -/
theorem claim_C6_amended :
    build_quadtree pix3x3 3 3 2 = some t3x3 ∧
    ∀ (k : ℕ) (pix : Grid Color), ∃ t,
      build_quadtree pix (2 ^ k) (2 ^ k) (k + 1) = some t := by
  refine ⟨build_pix3x3, ?_⟩
  intro k pix
  have h1 : ((⟨0, 0, 2 ^ k - 1, 2 ^ k - 1⟩ : Rect)).dr_x -
      (⟨0, 0, 2 ^ k - 1, 2 ^ k - 1⟩ : Rect).ul_x + 1 = 2 ^ k := by
    simp only []
    omega
  have h2 : ((⟨0, 0, 2 ^ k - 1, 2 ^ k - 1⟩ : Rect)).dr_y -
      (⟨0, 0, 2 ^ k - 1, 2 ^ k - 1⟩ : Rect).ul_y + 1 = 2 ^ k := by
    simp only []
    omega
  obtain ⟨t, hb, -, -, -, -, -⟩ :=
    build_master k pix ⟨0, 0, 2 ^ k - 1, 2 ^ k - 1⟩ 0 h1 h2
  exact ⟨t, hb⟩

/-- Claim C7 counterexample: the output shape does not always equal the
input shape: rendering a tree built from a 2 by 2 image with one channel
(shape [2, 2, 1]) returns shape [2, 2], because the source np.squeeze-s
the result. -/
theorem claim_C7_counterexample :
    ∃ p, quadtree_to_image bufE tEx [2, 2, 1] false = some p ∧
      p.2 ≠ [2, 2, 1] := by
  have h1 : ((⟨0, 0, 1, 1⟩ : Rect)).dr_x - (⟨0, 0, 1, 1⟩ : Rect).ul_x + 1 = 2 ^ 1 := by
    norm_num
  have h2 : ((⟨0, 0, 1, 1⟩ : Rect)).dr_y - (⟨0, 0, 1, 1⟩ : Rect).ul_y + 1 = 2 ^ 1 := by
    norm_num
  obtain ⟨t9, hb9, -, -, -, hrend, -⟩ := build_master 1 pixA ⟨0, 0, 1, 1⟩ 0 h1 h2
  have hb2 : build_quadtree_recursive pixA 2 ⟨0, 0, 1, 1⟩ 0 = some tEx := build_pixA
  rw [hb9, Option.some.injEq] at hb2
  subst hb2
  obtain ⟨f, hf⟩ := render_patch tEx hrend
  refine ⟨((fun y x => if inRect tEx.rect x y then f y x else bufE y x),
    npSqueeze [2, 2, 1]), ?_, ?_⟩
  · simp [quadtree_to_image, hf bufE]
  · show npSqueeze [2, 2, 1] ≠ [2, 2, 1]
    decide

/-- Claim C7 amended: rendering is a pure function of the tree (the output
buffer is a tree-determined patch of the fresh buffer, so two renders of
the same tree agree), build produces renderable trees and compress
preserves renderability, but the output shape is the input shape with all
size-1 axes removed (np.squeeze); it equals the input shape exactly when
no axis has size 1. -/
theorem claim_C7_amended :
    (∀ (k : ℕ) (pix : Grid Color), ∃ t,
        build_quadtree pix (2 ^ k) (2 ^ k) (k + 1) = some t ∧
        wfB t = true ∧ Renderable t) ∧
    (∀ (τ : ℚ) (t : QNode Color), wfB t = true → Renderable t →
        ∃ t2, compress_quadtree_recursive τ t = some t2 ∧
          wfB t2 = true ∧ Renderable t2) ∧
    (∀ t : QNode Color, Renderable t → ∃ f : Grid Color,
        ∀ (fresh : Grid Color) (shape : List ℕ),
          quadtree_to_image fresh t shape false =
            some ((fun y x => if inRect t.rect x y then f y x else fresh y x),
              npSqueeze shape)) ∧
    (∀ shape : List ℕ, ¬ 1 ∈ shape → npSqueeze shape = shape) := by
  refine ⟨?_, ?_, ?_, ?_⟩
  · intro k pix
    have h1 : ((⟨0, 0, 2 ^ k - 1, 2 ^ k - 1⟩ : Rect)).dr_x -
        (⟨0, 0, 2 ^ k - 1, 2 ^ k - 1⟩ : Rect).ul_x + 1 = 2 ^ k := by
      simp only []
      omega
    have h2 : ((⟨0, 0, 2 ^ k - 1, 2 ^ k - 1⟩ : Rect)).dr_y -
        (⟨0, 0, 2 ^ k - 1, 2 ^ k - 1⟩ : Rect).ul_y + 1 = 2 ^ k := by
      simp only []
      omega
    obtain ⟨t, hb, -, -, hwf, hrend, -⟩ :=
      build_master k pix ⟨0, 0, 2 ^ k - 1, 2 ^ k - 1⟩ 0 h1 h2
    exact ⟨t, hb, hwf, hrend⟩
  · intro τ t hwf hrend
    obtain ⟨t2, hc, hw2, hr2, -⟩ := compress_preserve τ (sizeOf t) t le_rfl hwf hrend
    exact ⟨t2, hc, hw2, hr2⟩
  · intro t hrend
    obtain ⟨f, hf⟩ := render_patch t hrend
    exact ⟨f, fun fresh shape => by simp [quadtree_to_image, hf fresh]⟩
  · intro shape hmem
    simp only [npSqueeze]
    rw [List.filter_eq_self]
    intro a ha
    exact decide_eq_true (fun e => hmem (e ▸ ha))

/-- Witness for C7 at the concrete single-node tree `tMerged`. -/
theorem claim_C7_witness :
    Renderable tMerged ∧
    ∃ f : Grid Color, ∀ (fresh : Grid Color) (shape : List ℕ),
      quadtree_to_image fresh tMerged shape false =
        some ((fun y x => if inRect tMerged.rect x y then f y x else fresh y x),
          npSqueeze shape) :=
  ⟨.colored _ _ _ _ _ _ _, claim_C7_amended.2.2.1 tMerged (.colored _ _ _ _ _ _ _)⟩

/-- Claim C8: the source intends to reject an unrecognized quadrant tag
with an assertion, but its assert tests a non-empty string literal and so
never fires; the call still fails fast (no rectangle is returned), yet
with a NameError from the never-assigned shift variables, not with the
intended assertion failure. -/
theorem claim_C8_invalid_quadrant :
    (∀ (r : Rect) (child : String),
        child ≠ "nw" → child ≠ "ne" → child ≠ "sw" → child ≠ "se" →
        compute_image_corners r child = .error .nameError) ∧
    compute_image_corners ⟨0, 0, 7, 7⟩ "xx" = .error .nameError ∧
    compute_image_corners ⟨0, 0, 7, 7⟩ "xx" ≠ .error .assertionError := by
  have h : ∀ (r : Rect) (child : String),
      child ≠ "nw" → child ≠ "ne" → child ≠ "sw" → child ≠ "se" →
      compute_image_corners r child = .error .nameError := by
    intro r child h1 h2 h3 h4
    simp only [compute_image_corners]
    rw [if_neg h1, if_neg h2, if_neg h3, if_neg h4, if_neg (by decide)]
  refine ⟨h, h _ _ (by decide) (by decide) (by decide) (by decide), ?_⟩
  rw [h _ _ (by decide) (by decide) (by decide) (by decide)]
  simp

/-- Witness for C8 at the concrete bad tag. -/
theorem claim_C8_witness :
    ("xx" ≠ "nw" ∧ "xx" ≠ "ne" ∧ "xx" ≠ "sw" ∧ "xx" ≠ "se") ∧
    compute_image_corners ⟨0, 0, 7, 7⟩ "xx" = .error .nameError :=
  ⟨⟨by decide, by decide, by decide, by decide⟩,
   claim_C8_invalid_quadrant.1 ⟨0, 0, 7, 7⟩ "xx" (by decide) (by decide) (by decide)
     (by decide)⟩

/-- Claim C9: `max_num_nodes` reaches its base case exactly on the powers
of two: with fuel `k + 1` it returns a value at `2 ^ k`, while on any
positive integer that is not a power of two the recursion through the
non-integer halving never reaches `N == 1`, at any fuel. -/
theorem claim_C9_termination :
    (∀ k : ℕ, ∃ M, max_num_nodes (k + 1) ((2 : ℚ) ^ k) = some M) ∧
    (∀ N : ℕ, 0 < N → (¬ ∃ k : ℕ, N = 2 ^ k) →
        ∀ fuel : ℕ, max_num_nodes fuel ((N : ℕ) : ℚ) = none) := by
  constructor
  · intro k
    exact ⟨_, max_num_nodes_pow k⟩
  · intro N h0 hnp fuel
    exact max_num_nodes_stuck fuel ((N : ℕ) : ℚ) (cast_ne_zpow_two N h0 hnp)

/-- Witness for C9 at the non-power-of-two side length 3. -/
theorem claim_C9_witness :
    (0 < 3 ∧ ¬ ∃ k : ℕ, 3 = 2 ^ k) ∧ max_num_nodes 5 ((3 : ℕ) : ℚ) = none := by
  have hnp : ¬ ∃ k : ℕ, 3 = 2 ^ k := by
    rintro ⟨k, hk⟩
    rcases k with _ | _ | k
    · norm_num at hk
    · norm_num at hk
    · have h4 : 4 ≤ 2 ^ (k + 2) := by
        have := Nat.pow_le_pow_right (show 1 ≤ 2 by norm_num)
          (show 2 ≤ k + 2 by omega)
        simpa using this
      omega
  exact ⟨⟨by norm_num, hnp⟩, claim_C9_termination.2 3 (by norm_num) hnp 5⟩

/-- Claim C10: for a 2-D (grayscale) buffer, rendering with draw_box true
fails whenever the traversal visits a colored node whose box is not 3
pixels high and 3 pixels wide, because the border writes assign the fixed
3-vector [0, 0, 0] into slices with no channel axis; in particular every
tree built from a 2-D image renders to an error with draw_box true, its
colored nodes being single pixels. -/
theorem claim_C10_draw_box_grayscale :
    (∀ t : QNode ℚ, visitsBad t = true →
        ∀ buf : Grid ℚ, quadtree_to_image_recursive_2d true t buf = none) ∧
    (∀ (k : ℕ) (pix : Grid ℚ), ∃ t,
        build_quadtree pix (2 ^ k) (2 ^ k) (k + 1) = some t ∧ visitsBad t = true ∧
        ∀ buf : Grid ℚ, quadtree_to_image_recursive_2d true t buf = none) := by
  constructor
  · intro t hv buf
    exact render2d_box_fails (sizeOf t) t le_rfl hv buf
  · intro k pix
    have h1 : ((⟨0, 0, 2 ^ k - 1, 2 ^ k - 1⟩ : Rect)).dr_x -
        (⟨0, 0, 2 ^ k - 1, 2 ^ k - 1⟩ : Rect).ul_x + 1 = 2 ^ k := by
      simp only []
      omega
    have h2 : ((⟨0, 0, 2 ^ k - 1, 2 ^ k - 1⟩ : Rect)).dr_y -
        (⟨0, 0, 2 ^ k - 1, 2 ^ k - 1⟩ : Rect).ul_y + 1 = 2 ^ k := by
      simp only []
      omega
    obtain ⟨t, hb, -, -, -, -, hvb⟩ :=
      build_master k pix ⟨0, 0, 2 ^ k - 1, 2 ^ k - 1⟩ 0 h1 h2
    exact ⟨t, hb, hvb, fun buf => render2d_box_fails (sizeOf t) t le_rfl hvb buf⟩

/-- Witness for C10 at a concrete colored 1 by 1 node. -/
theorem claim_C10_witness :
    visitsBad leafQ = true ∧
    quadtree_to_image_recursive_2d true leafQ bufQ = none :=
  ⟨by decide, claim_C10_draw_box_grayscale.1 leafQ (by decide) bufQ⟩
